import Mathlib

/-!
Verification development for the ffxiv-broker Market Scan & Ranking Engine.

This file gives a shallow embedding, in Lean 4, of the core of the
repository: the configuration object (broker/config.py), the metrics
library (broker/services/metrics.py), the scoring engine
(broker/services/advisor.py), the batched market-data client
(broker/clients/universalis.py), the full-scan job
(broker/jobs/refresh.py) and the cache-store interactions it performs
(broker/db/cache.py).  Python floats are modelled as rationals, Python
ints as integers (or naturals where the source validates nonnegativity),
fallible lookups as Option, and the Redis store as a function from string
keys to optional values.  Each definition mirrors one source function and
is named after it where Lean allows.
-/

namespace Broker

/-- Configuration mirroring the Settings class of broker/config.py.
Only the fields that the verified core reads are embedded.  Python float
fields are rationals, int fields are integers; RETRY_MAX is validated
nonnegative (ge=0) so it is embedded as a natural number. -/
structure Settings where
  CACHE_TTL_SHORT : ℤ
  CACHE_TTL_LONG : ℤ
  RETRY_MAX : ℕ
  ADVICE_W_ROI : ℚ
  ADVICE_W_SPD : ℚ
  ADVICE_W_PPD : ℚ
  ADVICE_SPD_NORM : ℚ
  ADVICE_PPD_NORM : ℚ
  ADVICE_PENALTY_SATURO : ℚ
  ADVICE_PENALTY_INSTABILE : ℚ
  ADVICE_PENALTY_COMP : ℚ
  ADVICE_RISK_LOW : ℚ
  ADVICE_RISK_MED : ℚ
  ADVICE_SATURATION_MULT : ℚ
  FLIP_THRESHOLD : ℚ
  ADVICE_SUSPECT_ROI : ℚ
  ADVICE_SUSPECT_CV : ℚ
  ADVICE_SUSPECT_ABS_PROFIT : ℤ
  ADVICE_MIN_SALES_SAFE : ℤ
deriving DecidableEq

/-- The pydantic Field validation constraints of broker/config.py, lines
16-46: a configuration is admissible exactly when every embedded field
satisfies its declared bound (ge / gt / le).  Note that no constraint
relates CACHE_TTL_SHORT to CACHE_TTL_LONG. -/
def Settings.admissible (s : Settings) : Prop :=
  0 ≤ s.CACHE_TTL_SHORT ∧ 0 ≤ s.CACHE_TTL_LONG ∧
  0 ≤ s.ADVICE_W_ROI ∧ 0 ≤ s.ADVICE_W_SPD ∧ 0 ≤ s.ADVICE_W_PPD ∧
  0 < s.ADVICE_SPD_NORM ∧ 0 < s.ADVICE_PPD_NORM ∧
  0 ≤ s.ADVICE_PENALTY_SATURO ∧ 0 ≤ s.ADVICE_PENALTY_INSTABILE ∧
  0 ≤ s.ADVICE_PENALTY_COMP ∧
  (0 ≤ s.ADVICE_RISK_LOW ∧ s.ADVICE_RISK_LOW ≤ 1) ∧
  (0 ≤ s.ADVICE_RISK_MED ∧ s.ADVICE_RISK_MED ≤ 1) ∧
  0 < s.ADVICE_SATURATION_MULT ∧
  (0 < s.FLIP_THRESHOLD ∧ s.FLIP_THRESHOLD ≤ 1) ∧
  0 ≤ s.ADVICE_SUSPECT_ROI ∧ 0 ≤ s.ADVICE_SUSPECT_CV ∧
  0 ≤ s.ADVICE_SUSPECT_ABS_PROFIT ∧ 0 ≤ s.ADVICE_MIN_SALES_SAFE

instance (s : Settings) : Decidable s.admissible := by
  unfold Settings.admissible; infer_instance

/-- The default values of broker/config.py (0.05 = 1/20, 0.7 = 7/10, and
so on, written as exact rationals). -/
def defaultSettings : Settings where
  CACHE_TTL_SHORT := 600
  CACHE_TTL_LONG := 43200
  RETRY_MAX := 3
  ADVICE_W_ROI := 7/10
  ADVICE_W_SPD := 1/2
  ADVICE_W_PPD := 2/5
  ADVICE_SPD_NORM := 10
  ADVICE_PPD_NORM := 50000
  ADVICE_PENALTY_SATURO := 1/5
  ADVICE_PENALTY_INSTABILE := 1/5
  ADVICE_PENALTY_COMP := 1/10
  ADVICE_RISK_LOW := 3/10
  ADVICE_RISK_MED := 3/5
  ADVICE_SATURATION_MULT := 5
  FLIP_THRESHOLD := 7/10
  ADVICE_SUSPECT_ROI := 10
  ADVICE_SUSPECT_CV := 3/2
  ADVICE_SUSPECT_ABS_PROFIT := 200000
  ADVICE_MIN_SALES_SAFE := 5

/-- An open sell offer, mirroring the Listing model of
broker/models/market.py.  Pydantic validates price_per_unit ge=0 and
quantity ge=1, so validated records are embedded with natural-number
fields. -/
structure Listing where
  price_per_unit : ℕ
  quantity : ℕ
  hq : Bool
deriving DecidableEq

/-- A completed historical sale, mirroring the Sale model of
broker/models/market.py (price_per_unit ge=0, quantity ge=1,
timestamp ge=0 in unix seconds). -/
structure Sale where
  price_per_unit : ℕ
  quantity : ℕ
  timestamp : ℕ
  hq : Bool
deriving DecidableEq

/-! ### Metrics library (broker/services/metrics.py)

Every window function takes the current time explicitly (the source reads
time.time() inside the internal helper named after the cutoff timestamp). -/

/-- The cutoff-timestamp helper of metrics.py line 11: now minus
days * 86400 seconds. -/
def cutoff_ts (now : ℤ) (days : ℕ) : ℤ := now - days * 86400

/-- The in-window unit-price selection that avg_price, trimmed_mean_price,
price_cv, quantile_price and prices_in_window all perform with the same
loop: keep sales with timestamp at least the cutoff and take their unit
price as a float.  metrics.py lines 53-62 name this prices_in_window. -/
def prices_in_window (now : ℤ) (history : List Sale) (days : ℕ) : List ℚ :=
  (history.filter (fun sale => cutoff_ts now days ≤ (sale.timestamp : ℤ))).map
    (fun sale => (sale.price_per_unit : ℚ))

/-- avg_price of metrics.py lines 15-24: arithmetic mean of in-window
prices, none if the window is empty. -/
def avg_price (now : ℤ) (history : List Sale) (days : ℕ) : Option ℚ :=
  let prices := prices_in_window now history days
  if prices = [] then none else some (prices.sum / prices.length)

/-- Python round with no digits argument: round half to even, returning an
integer.  Used by quantile_price for the index computation. -/
def pyRound (x : ℚ) : ℤ :=
  let f := ⌊x⌋
  let r := x - f
  if r < 1/2 then f
  else if 1/2 < r then f + 1
  else if f % 2 = 0 then f else f + 1

/-- trimmed_mean_price of metrics.py lines 27-50: clamp trim to [0, 0.45],
sort the window, drop floor(n * trim) from each end (int() truncates, and
the argument is nonnegative, so it is the floor), fall back to the full
sorted list if the slice would be empty, and take the mean.  Python sorts
with list.sort(); on rationals any stable comparison sort yields the
unique ascending reordering, embedded as insertionSort. -/
def trimmed_mean_price (now : ℤ) (history : List Sale) (days : ℕ) (trim : ℚ) :
    Option ℚ :=
  let prices := prices_in_window now history days
  if prices = [] then none else
  let sorted := List.insertionSort (· ≤ ·) prices
  let n := sorted.length
  let k := (⌊(n : ℚ) * max 0 (min (45/100) trim)⌋).toNat
  let core := if k < n - k then (sorted.drop k).take (n - k - k) else sorted
  let core := if core = [] then sorted else core
  some (core.sum / core.length)

/-- The square of the coefficient of variation computed by price_cv of
metrics.py lines 65-80.  The source computes stdev(ps) / mean(ps) with the
sample standard deviation (n - 1 denominator) of the statistics module and
returns None when fewer than 2 samples or the mean is zero.  The square
root leaves the rationals, so the embedding carries the square of the
quotient; whenever the source value is defined it is nonnegative, hence
comparisons of price_cv against a nonnegative threshold t correspond
exactly to comparisons of this square against t * t. -/
def price_cv_sq (now : ℤ) (history : List Sale) (days : ℕ) : Option ℚ :=
  let ps := prices_in_window now history days
  if ps.length < 2 then none else
  let mean := ps.sum / ps.length
  if mean = 0 then none else
  let variance := (ps.map (fun x => (x - mean) * (x - mean))).sum / ((ps.length : ℚ) - 1)
  some (variance / (mean * mean))

/-- quantile_price of metrics.py lines 83-104: clamp q to [0, 1], collect
in-window prices, none if empty, otherwise sort ascending and return the
element at index round((n - 1) * q), with the round of Python (half to
even). -/
def quantile_price (now : ℤ) (history : List Sale) (q : ℚ) (days : ℕ) :
    Option ℚ :=
  let qc := max 0 (min 1 q)
  let prices := prices_in_window now history days
  if prices = [] then none else
  let sorted := List.insertionSort (· ≤ ·) prices
  sorted[(pyRound (((prices.length : ℚ) - 1) * qc)).toNat]?

/-- median_price of metrics.py lines 107-108: quantile_price at q = 0.5. -/
def median_price (now : ℤ) (history : List Sale) (days : ℕ) : Option ℚ :=
  quantile_price now history (1/2) days

/-- The in-window quantity sum shared by sales_per_day (lines 111-118) and
units_sold (lines 121-128); both loops are textually identical in the
source. -/
def window_qty (now : ℤ) (history : List Sale) (days : ℕ) : ℕ :=
  ((history.filter (fun sale => cutoff_ts now days ≤ (sale.timestamp : ℤ))).map
    (fun sale => sale.quantity)).sum

/-- units_sold of metrics.py lines 121-128: integer sum of in-window
quantities. -/
def units_sold (now : ℤ) (history : List Sale) (days : ℕ) : ℕ :=
  window_qty now history days

/-- sales_per_day of metrics.py lines 111-118: in-window quantity sum
divided by the day count (float division in the source). -/
def sales_per_day (now : ℤ) (history : List Sale) (days : ℕ) : ℚ :=
  (window_qty now history days : ℚ) / (days : ℚ)

/-- roi of metrics.py lines 131-141: zero when the cost is nonpositive,
otherwise net revenue after the clamped seller tax minus effective cost
after the clamped buyer tax, divided by the effective cost.  The call
sites in jobs/refresh.py use the default taxes 0.05 = 1/20. -/
def roi (net_price cost_total buyer_tax seller_tax : ℚ) : ℚ :=
  if cost_total ≤ 0 then 0 else
  let revenue := net_price * (1 - max 0 (min seller_tax 1))
  let effective_cost := cost_total * (1 + max 0 (min buyer_tax 1))
  (revenue - effective_cost) / effective_cost

/-- net_profit_unit of metrics.py lines 144-153: absolute profit per unit
after the clamped taxes. -/
def net_profit_unit (target_price lowest_cost buyer_tax seller_tax : ℚ) : ℚ :=
  target_price * (1 - max 0 (min seller_tax 1)) -
    lowest_cost * (1 + max 0 (min buyer_tax 1))

/-- saturation_flag of metrics.py lines 156-157: stock strictly above the
configured multiplier times the sales velocity. -/
def saturation_flag (s : Settings) (stock_count : ℕ) (spd : ℚ) : Bool :=
  decide (s.ADVICE_SATURATION_MULT * spd < (stock_count : ℚ))

/-- flip_flag of metrics.py lines 160-163: false when the baseline is
None, otherwise lowest strictly below the configured threshold times the
baseline. -/
def flip_flag (s : Settings) (lowest : ℚ) (avg7 : Option ℚ) : Bool :=
  match avg7 with
  | none => false
  | some a => decide (lowest < s.FLIP_THRESHOLD * a)

/-! ### Scoring engine (broker/services/advisor.py) -/

/-- The flag strings the scan job can attach to a candidate ("saturo",
"instabile", "flip" in the source). -/
inductive Flag
  | saturo
  | instabile
  | flip
deriving DecidableEq

/-- The risk classes returned by compute_score; the source uses the
strings "alto" (high risk), "medio" (medium) and "basso" (low). -/
inductive RiskClass
  | alto
  | medio
  | basso
deriving DecidableEq

/-- compute_score of broker/services/advisor.py lines 26-55.  The
penalty is accumulated by successive additions in the source; the
competition count is a cardinality (the callers pass a count of
listings), embedded as a natural number, over which the max with 0 taken
by the source is kept textually. -/
def compute_score (s : Settings) (roi_value spd : ℚ) (flags : List Flag)
    (ppd : ℚ) (competition_count : ℕ) : ℚ × RiskClass :=
  let norm_roi := max 0 (min 1 ((roi_value + 1/2) / (3/2)))
  let vend := max 0 (min 1 (spd / s.ADVICE_SPD_NORM))
  let ppdn := max 0 (min 1 (ppd / s.ADVICE_PPD_NORM))
  let penalty0 : ℚ := 0
  let penalty1 := if Flag.saturo ∈ flags then penalty0 + s.ADVICE_PENALTY_SATURO else penalty0
  let penalty2 := if Flag.instabile ∈ flags then penalty1 + s.ADVICE_PENALTY_INSTABILE else penalty1
  let comp_pen := min 1 (max 0 (competition_count : ℚ) / 10) * s.ADVICE_PENALTY_COMP
  let penalty := penalty2 + comp_pen
  let score := max 0
    (norm_roi * s.ADVICE_W_ROI + vend * s.ADVICE_W_SPD + ppdn * s.ADVICE_W_PPD - penalty)
  let risk := if score < s.ADVICE_RISK_LOW then RiskClass.alto
    else if score < s.ADVICE_RISK_MED then RiskClass.medio
    else RiskClass.basso
  (score, risk)

/-! ### Cache keyspace (broker/db/cache.py) -/

/-- The namespacing helper ns of broker/db/cache.py line 17: it joins the
namespace and the key with a colon. -/
def ns (namespc key : String) : String := namespc ++ ":" ++ key

/-- An item-market snapshot as returned by the client: the pair of the
listings and recentHistory fields. -/
structure Snapshot where
  listings : List Listing
  recentHistory : List Sale
deriving DecidableEq

/-- The pre-initialized empty snapshot used by get_items_world. -/
def emptySnap : Snapshot := ⟨[], []⟩

/-- One set_json call performed by the client, with its key parts and the
ttl argument (broker/db/cache.py set_json; a ttl that is not positive
means the key is stored without expiry). -/
inductive CacheWrite
  | wlist (world : String) (item_id : ℤ) (value : List Listing) (ttl : ℤ)
  | whist (world : String) (item_id : ℤ) (value : List Sale) (ttl : ℤ)
deriving DecidableEq

/-- The string key a cache write goes to, following the key scheme of
universalis.py lines 43-44 and 156-157. -/
def CacheWrite.key : CacheWrite → String
  | .wlist world item_id _ _ => ns "u" (world ++ ":" ++ toString item_id ++ ":listings")
  | .whist world item_id _ _ => ns "u" (world ++ ":" ++ toString item_id ++ ":history")

/-! ### Remote fetch client (broker/clients/universalis.py) -/

/-- The value found under one of the identifier fields of a multi-item
response entry: an integer, an unparseable but truthy value (int() raises
on it), or the field absent (dict.get returns None). -/
inductive FieldVal
  | num (n : ℤ)
  | bad
  | absent
deriving DecidableEq

/-- Python truthiness of a FieldVal: None and 0 are falsy, every other
value the client can meet there is truthy. -/
def FieldVal.truthy : FieldVal → Bool
  | .num n => n != 0
  | .bad => true
  | .absent => false

/-- Python: a or b. -/
def pyOrF (a b : FieldVal) : FieldVal := if a.truthy then a else b

/-- One entry of a multi-item response, as the client reads it: the four
fields the identifier is defensively recovered from (universalis.py lines
138-143), and the listings and recentHistory payloads (dict.get with
default [], so an absent field reads as the empty list). -/
structure RawEntry where
  fldItemID : FieldVal
  fldItemId : FieldVal
  fldItemLowbar : FieldVal
  fldItem : FieldVal
  listings : List Listing
  recentHistory : List Sale
deriving DecidableEq

/-- The defensive identifier recovery of universalis.py lines 138-147:
item.get of itemID or itemId or item_id or item (Python or, so a 0 or an
absent field falls through), then int() guarded by try/except, yielding
None for an absent chain result or an unparseable value. -/
def recoverId (e : RawEntry) : Option ℤ :=
  match pyOrF (pyOrF (pyOrF e.fldItemID e.fldItemId) e.fldItemLowbar) e.fldItem with
  | .num n => some n
  | .bad => none
  | .absent => none

/-- The shapes of the multi-item response body handled by universalis.py
lines 113-134: a dict with items as a keyed map (each key parsed with
int(), or none when unparseable; a value that is not a dict is skipped),
a dict with items as a plain list, a dict whose items field is neither
(the whole body is treated as a single entry), or a body that is not a
dict at all (no entries). -/
inductive ItemsPayload
  | keyed (entries : List (Option ℤ × Option RawEntry))
  | plain (entries : List RawEntry)
  | single (whole : RawEntry)
  | notDict
deriving DecidableEq

/-- The keyed-map normalization of universalis.py lines 119-129: skip
non-dict values, and when the key parsed as an integer and the value has
no itemID field, inject the key as the itemID field. -/
def normalizeKeyed : List (Option ℤ × Option RawEntry) → List RawEntry
  | [] => []
  | (_, none) :: rest => normalizeKeyed rest
  | (some k, some v) :: rest =>
      (if v.fldItemID = FieldVal.absent then { v with fldItemID := FieldVal.num k } else v)
        :: normalizeKeyed rest
  | (none, some v) :: rest => v :: normalizeKeyed rest

/-- The normalized items_list the client builds from a response payload
(universalis.py lines 116-134). -/
def itemsList : ItemsPayload → List RawEntry
  | .keyed entries => normalizeKeyed entries
  | .plain entries => entries
  | .single whole => [whole]
  | .notDict => []

/-- The order dict of universalis.py line 95, built by the comprehension
over enumerate(item_ids): later pairs overwrite earlier ones, so looking
up an identifier yields the index of its last occurrence, and None when
the identifier does not occur. -/
def orderLookup : List ℤ → ℤ → Option ℕ
  | [], _ => none
  | x :: xs, iid =>
      match orderLookup xs iid with
      | some j => some (j + 1)
      | none => if x = iid then some 0 else none

/-- The chunking generator of universalis.py lines 73-81: accumulate into
a buffer, emit the buffer when it reaches the requested size, and emit
the nonempty remainder at the end. -/
def chunksGo (size : ℕ) : List ℤ → List ℤ → List (List ℤ)
  | buf, [] => if buf = [] then [] else [buf]
  | buf, x :: xs =>
      let buf2 := buf ++ [x]
      if size ≤ buf2.length then buf2 :: chunksGo size [] xs
      else chunksGo size buf2 xs

/-- The chunks helper applied to a whole identifier list (empty initial
buffer). -/
def chunksOf (size : ℕ) (ids : List ℤ) : List (List ℤ) := chunksGo size [] ids

/-- The multi-item requests get_items_world issues: one per chunk of at
most 100 identifiers (universalis.py lines 100-105). -/
def requestsOf (ids : List ℤ) : List (List ℤ) := chunksOf 100 ids

/-- Processing of one normalized response entry against the output slots
(universalis.py lines 136-165): recover the identifier, skip the entry
when it is unresolved or not in the order dict, otherwise write the
snapshot into the slot of the identifier. -/
def processEntry (ids : List ℤ) (out : List Snapshot) (e : RawEntry) :
    List Snapshot :=
  match recoverId e with
  | none => out
  | some iid =>
      match orderLookup ids iid with
      | none => out
      | some idx => out.set idx ⟨e.listings, e.recentHistory⟩

/-- Processing of one chunk response: fold processEntry over the
normalized items_list. -/
def processPayload (ids : List ℤ) (out : List Snapshot) (p : ItemsPayload) :
    List Snapshot :=
  (itemsList p).foldl (processEntry ids) out

/-- get_items_world of universalis.py lines 84-174, as a function of the
identifier list and of the provider (the payload returned for each chunk
request; the embedding assumes every chunk request eventually succeeds,
retries being modelled separately).  Returns [] on an empty input,
otherwise starts from one pre-initialized empty snapshot per input
position and processes the chunks in order. -/
def get_items_world (ids : List ℤ) (fetch : List ℤ → ItemsPayload) :
    List Snapshot :=
  if ids = [] then [] else
  (requestsOf ids).foldl (fun out g => processPayload ids out (fetch g))
    (List.replicate ids.length emptySnap)

/-- The cache writes get_items_world performs (universalis.py lines
154-162): for every accepted entry, in processing order, one listings
write with ttl CACHE_TTL_SHORT then one history write with ttl
CACHE_TTL_LONG.  This is the write-log projection of the same single
pass over the responses that get_items_world performs. -/
def get_items_world_writes (s : Settings) (world : String) (ids : List ℤ)
    (fetch : List ℤ → ItemsPayload) : List CacheWrite :=
  if ids = [] then [] else
  (requestsOf ids).foldl
    (fun ws g =>
      (itemsList (fetch g)).foldl
        (fun ws e =>
          match recoverId e with
          | none => ws
          | some iid =>
              match orderLookup ids iid with
              | none => ws
              | some _ =>
                  ws ++ [CacheWrite.wlist world iid e.listings s.CACHE_TTL_SHORT,
                         CacheWrite.whist world iid e.recentHistory s.CACHE_TTL_LONG])
        ws)
    []

/-- get_item_world of universalis.py lines 36-70: cache-aside single
fetch.  When both halves are cached it returns them with no writes;
otherwise it uses the fetched response and stores the listings under ttl
CACHE_TTL_SHORT and the history under ttl CACHE_TTL_LONG. -/
def get_item_world (s : Settings) (world : String) (item_id : ℤ)
    (cachedListings : Option (List Listing)) (cachedHistory : Option (List Sale))
    (resp : Snapshot) : Snapshot × List CacheWrite :=
  match cachedListings, cachedHistory with
  | some cl, some ch => (⟨cl, ch⟩, [])
  | _, _ =>
      (resp,
       [CacheWrite.wlist world item_id resp.listings s.CACHE_TTL_SHORT,
        CacheWrite.whist world item_id resp.recentHistory s.CACHE_TTL_LONG])

/-- All normalized response entries of a run of get_items_world, in
processing order. -/
def allEntries (ids : List ℤ) (fetch : List ℤ → ItemsPayload) : List RawEntry :=
  ((requestsOf ids).map (fun g => itemsList (fetch g))).flatten

/-- The snapshot the provider response holds for an identifier: the last
response entry that resolves to it (later entries overwrite earlier
ones), or the pre-initialized empty snapshot when no entry matches. -/
def snapshotFor (ids : List ℤ) (fetch : List ℤ → ItemsPayload) (iid : ℤ) :
    Snapshot :=
  match ((allEntries ids fetch).filter (fun e => recoverId e = some iid)).getLast? with
  | some e => ⟨e.listings, e.recentHistory⟩
  | none => emptySnap

/-! ### Retry policy (universalis.py lines 16-24)

The tenacity retryer is built with reraise=True, stop_after_attempt
(RETRY_MAX), wait_exponential(multiplier=0.2, min=0.2, max=3) and
retry_if_exception_type((httpx.ReadTimeout, httpx.ConnectTimeout,
httpx.HTTPStatusError)); both get_item_world and get_items_world wrap
every HTTP request in it. -/

/-- The errors an attempt of the wrapped request body can raise: the
httpx exception classes, an HTTP status error (raised by
raise_for_status exactly on a non-2xx response), a malformed-payload
error from response parsing, or anything else. -/
inductive HErr
  | readTimeout
  | connectTimeout
  | writeTimeout
  | poolTimeout
  | connectError
  | readError
  | httpStatusError
  | malformedPayload
  | otherError
deriving DecidableEq

/-- The retry predicate of the tenacity retryer: retry_if_exception_type
with exactly the classes ReadTimeout, ConnectTimeout and HTTPStatusError
(isinstance check, so no other class matches). -/
def is_retryable : HErr → Bool
  | .readTimeout => true
  | .connectTimeout => true
  | .httpStatusError => true
  | _ => false

/-- The backoff delay tenacity sleeps after failed attempt n (1-based):
wait_exponential with multiplier 0.2, min 0.2 and max 3, that is 0.2
times 2 to the n, clamped into [0.2, 3]. -/
def backoffDelay (n : ℕ) : ℚ := max (1/5) (min 3 ((1/5) * 2 ^ n))

/-- One run of the AsyncRetrying loop: k is the 0-based index of the
current attempt, remaining is how many further attempts the stop
condition still allows.  A success returns; a failure is re-raised
immediately when its class is not retryable or no attempt remains
(reraise=True), and retried otherwise.  Returns the final outcome and
the number of attempts executed. -/
def runRetryGo (attempts : ℕ → Except HErr α) : ℕ → ℕ → Except HErr α × ℕ
  | k, 0 =>
      match attempts k with
      | .ok a => (.ok a, k + 1)
      | .error e => (.error e, k + 1)
  | k, remaining + 1 =>
      match attempts k with
      | .ok a => (.ok a, k + 1)
      | .error e =>
          if is_retryable e then runRetryGo attempts (k + 1) remaining
          else (.error e, k + 1)

/-- The retryer applied from the first attempt: stop_after_attempt
(RETRY_MAX) allows RETRY_MAX attempts in total (and the first attempt
always runs, so a zero setting still performs one attempt). -/
def runRetry (s : Settings) (attempts : ℕ → Except HErr α) : Except HErr α × ℕ :=
  runRetryGo attempts 0 (s.RETRY_MAX - 1)

/-! ### Redis store model and the full-scan publish (broker/jobs/refresh.py) -/

/-- A Redis value: a plain string, a sorted-set payload or a hash
payload.  The engine treats the payloads as opaque; only key identity
matters to the publish pattern. -/
inductive RVal
  | str (s : String)
  | zset (members : List (String × ℚ))
  | hash (fields : List (String × String))
deriving DecidableEq

/-- The store: a partial map from string keys to values. -/
def Store : Type := String → Option RVal

/-- The store operations full_scan_advice performs (refresh.py lines
113-207): delete, ZADD, HSET with a mapping, SET of a string, and the
guarded rename written as: rename src dst if exists src else None. -/
inductive StoreOp
  | del (k : String)
  | zadd (k : String) (members : List (String × ℚ))
  | hset (k : String) (mapping : List (String × String))
  | setStr (k : String) (v : String)
  | renameIfExists (src dst : String)
deriving DecidableEq

/-- Upsert into an association list (the member merge ZADD and HSET
perform on an existing payload). -/
def upsertAll (old : List (String × α)) (new : List (String × α)) :
    List (String × α) :=
  new.foldl (fun acc kv => (acc.filter (fun p => p.1 ≠ kv.1)) ++ [kv]) old

/-- Semantics of one store operation.  RENAME moves the source value to
the destination and removes the source; the guard makes it a no-op when
the source key is absent (an unguarded redis RENAME would error). -/
def execOp (st : Store) (op : StoreOp) : Store :=
  match op with
  | .del k => fun q => if q = k then none else st q
  | .zadd k members =>
      let old := match st k with | some (.zset m) => m | _ => []
      fun q => if q = k then some (.zset (upsertAll old members)) else st q
  | .hset k mapping =>
      let old := match st k with | some (.hash m) => m | _ => []
      fun q => if q = k then some (.hash (upsertAll old mapping)) else st q
  | .setStr k v => fun q => if q = k then some (.str v) else st q
  | .renameIfExists src dst =>
      match st src with
      | none => st
      | some v => fun q => if q = dst then some v else if q = src then none else st q

/-- Sequential execution of a list of store operations. -/
def execOps (st : Store) (ops : List StoreOp) : Store := ops.foldl execOp st

/-- The advice keys of full_scan_advice (refresh.py lines 106-111),
built with the ns helper over the adv namespace. -/
def scoreTmpKey (world : String) : String := ns "adv" (world ++ ":score:tmp")

def dataTmpKey (world : String) : String := ns "adv" (world ++ ":data:tmp")

def scoreKey (world : String) : String := ns "adv" (world ++ ":score")

def dataKey (world : String) : String := ns "adv" (world ++ ":data")

def tsKey (world : String) : String := ns "adv" (world ++ ":ts")

def countKey (world : String) : String := ns "adv" (world ++ ":count")

/-- The store-operation sequence of full_scan_advice after the candidate
list has been accumulated (refresh.py lines 113-114 and 189-207): start
fresh temporary keys, populate them only when there are candidates, then
the two guarded renames, then the timestamp and scanned-count metadata.
zmembers and mapping are the payloads built from the candidate list, and
tsVal and countVal the metadata strings. -/
def fullScanOps (world : String) (hasCandidates : Bool)
    (zmembers : List (String × ℚ)) (mapping : List (String × String))
    (tsVal countVal : String) : List StoreOp :=
  [StoreOp.del (scoreTmpKey world), StoreOp.del (dataTmpKey world)]
  ++ (if hasCandidates then
        [StoreOp.zadd (scoreTmpKey world) zmembers,
         StoreOp.hset (dataTmpKey world) mapping]
      else [])
  ++ [StoreOp.renameIfExists (scoreTmpKey world) (scoreKey world),
      StoreOp.renameIfExists (dataTmpKey world) (dataKey world),
      StoreOp.setStr (tsKey world) tsVal,
      StoreOp.setStr (countKey world) countVal]

/-- The number of operations full_scan_advice performs before the first
rename: the two deletes, plus the two populate operations when there are
candidates. -/
def preRenameCount (hasCandidates : Bool) : ℕ := if hasCandidates then 4 else 2

/-! ### The per-item scan pass (refresh.py lines 129-178) -/

/-- A surviving advice candidate as accumulated by full_scan_advice
(name is resolved later and stays None during the scan). -/
structure ScanCandidate where
  item_id : ℤ
  roi : ℚ
  sales_per_day : ℚ
  profit_unit : ℚ
  profit_per_day : ℚ
  score : ℚ
  flags : List Flag
  risk : RiskClass
deriving DecidableEq

/-- Python min over a list with default=None. -/
def listMin : List ℤ → Option ℤ
  | [] => none
  | x :: xs => some (xs.foldl min x)

/-- Python: x or y on optional floats (None and 0.0 are falsy). -/
def pyOrOpt (a b : Option ℚ) : Option ℚ :=
  match a with
  | some v => if v = 0 then b else some v
  | none => b

/-- The lowest listed unit price of refresh.py line 135: Python min over
the listing prices with default=None. -/
def lowestOf (snap : Snapshot) : Option ℤ :=
  listMin (snap.listings.map (fun l => (l.price_per_unit : ℤ)))

/-- The target price of refresh.py line 140: the trimmed mean over the
7-day window with trim 0.2, or (Python or, falsy on None and 0.0) the
plain average. -/
def tgtOf (now : ℤ) (history : List Sale) : Option ℚ :=
  pyOrOpt (trimmed_mean_price now history 7 (1/5)) (avg_price now history 7)

/-- The cv is not None and cv greater than the threshold conjunct of the
anti-scam filter (refresh.py line 157), carried through the squares: when
the source cv = stdev / mean is defined both it and the admissible
threshold are nonnegative, so cv greater than t holds exactly when the
square of cv is greater than t * t. -/
def cvExceedsB (cv : Option ℚ) (t : ℚ) : Bool :=
  match cv with
  | some c => decide (t * t < c)
  | none => false

/-- The anti-scam filter condition of refresh.py lines 155-161, exactly
as the source writes it. -/
def suspect (s : Settings) (rroi p_unit : ℚ) (sold : ℕ) (cv : Option ℚ) : Bool :=
  (decide (s.ADVICE_SUSPECT_ROI < rroi) &&
     (decide ((sold : ℤ) < s.ADVICE_MIN_SALES_SAFE) ||
      cvExceedsB cv s.ADVICE_SUSPECT_CV))
  || (decide ((s.ADVICE_SUSPECT_ABS_PROFIT : ℚ) < p_unit) &&
      decide ((sold : ℤ) < s.ADVICE_MIN_SALES_SAFE))

/-- The body of the per-item loop of full_scan_advice (refresh.py lines
129-176): skip when both halves are empty, when there is no lowest
listing price, or when the target price is None; compute the metrics;
discard the candidate when the anti-scam filter of lines 153-161 fires;
otherwise score it and keep it.  The comparison of the coefficient of
variation against ADVICE_SUSPECT_CV is embedded through the squares (see
price_cv_sq). -/
def processItem (s : Settings) (now : ℤ) (iid : ℤ) (snap : Snapshot) :
    Option ScanCandidate :=
  let listings := snap.listings
  let history := snap.recentHistory
  if listings = [] ∧ history = [] then none else
  match lowestOf snap with
  | none => none
  | some lowest =>
    let spd := sales_per_day now history 7
    let sold := units_sold now history 7
    match tgtOf now history with
    | none => none
    | some tgt =>
      let flags := (if saturation_flag s listings.length spd then [Flag.saturo] else [])
        ++ (if flip_flag s (lowest : ℚ) (some tgt) then [Flag.flip] else [])
      let rroi := roi tgt (lowest : ℚ) (1/20) (1/20)
      let p_unit := net_profit_unit tgt (lowest : ℚ) (1/20) (1/20)
      let ppd := spd * p_unit
      let comp := (listings.filter (fun l => (l.price_per_unit : ℚ) ≤ tgt)).length
      let cv := price_cv_sq now history 7
      if suspect s rroi p_unit sold cv
      then none
      else
        let sr := compute_score s rroi spd flags ppd comp
        some { item_id := iid, roi := rroi, sales_per_day := spd,
               profit_unit := p_unit, profit_per_day := ppd,
               score := sr.1, flags := flags, risk := sr.2 }

/-! ### Claim-side formulas and concrete fixtures -/

/-- Spec-side description of chunking: all full chunks of size k, then
the nonzero remainder. -/
def chunkLengths (k n : ℕ) : List ℕ :=
  List.replicate (n / k) k ++ (if n % k = 0 then [] else [n % k])

/-- The anti-fraud filter formula exactly as the specification states it:
roi above the suspect-roi threshold and (units sold below the safe
minimum or the coefficient of variation above the suspect-cv threshold),
or absolute unit profit above the suspect-profit threshold and units
sold below the safe minimum.  The cv comparison is the shared
cvExceedsB (false when the cv is undefined). -/
def suspectClaim (s : Settings) (rroi p_unit : ℚ) (sold : ℕ) (cv : Option ℚ) :
    Prop :=
  (s.ADVICE_SUSPECT_ROI < rroi ∧
     ((sold : ℤ) < s.ADVICE_MIN_SALES_SAFE ∨
      cvExceedsB cv s.ADVICE_SUSPECT_CV = true)) ∨
  ((s.ADVICE_SUSPECT_ABS_PROFIT : ℚ) < p_unit ∧
     (sold : ℤ) < s.ADVICE_MIN_SALES_SAFE)

/-- All listings-before-history ttl pairs of a write log are ordered:
for every listings write and history write of the same region and item,
the listings ttl is at most the history ttl. -/
def ttlPairsOrdered (writes : List CacheWrite) : Prop :=
  ∀ world iid vl tl vh th,
    CacheWrite.wlist world iid vl tl ∈ writes →
    CacheWrite.whist world iid vh th ∈ writes → tl ≤ th

/-- Claim C9 as stated: under every admissible configuration, every
cached snapshot written by get_item_world or by get_items_world has its
listings ttl at most its history ttl. -/
def claimC9 : Prop :=
  ∀ s : Settings, s.admissible →
    (∀ world item_id cl ch resp,
      ttlPairsOrdered (get_item_world s world item_id cl ch resp).2) ∧
    (∀ world ids fetch, ttlPairsOrdered (get_items_world_writes s world ids fetch))

/-- An admissible configuration with the listings ttl above the history
ttl (both pass the ge=0 validation of config.py). -/
def settingsC9cex : Settings :=
  { defaultSettings with CACHE_TTL_SHORT := 2, CACHE_TTL_LONG := 1 }

/-- A provider response used by the C1 counterexample and the C10
witness: a plain items list with a single entry for item 1 carrying one
listing. -/
def fetchC1 : List ℤ → ItemsPayload := fun _ =>
  ItemsPayload.plain
    [⟨FieldVal.num 1, FieldVal.absent, FieldVal.absent, FieldVal.absent,
      [⟨10, 1, false⟩], []⟩]

/-- A provider response for the C1 witness: a keyed map answering ids 1
and 2 in reverse order, the entries carrying no identifier field of
their own (the key is injected). -/
def fetchC1wit : List ℤ → ItemsPayload := fun _ =>
  ItemsPayload.keyed
    [(some 2, some ⟨FieldVal.absent, FieldVal.absent, FieldVal.absent,
        FieldVal.absent, [⟨20, 1, false⟩], []⟩),
     (some 1, some ⟨FieldVal.absent, FieldVal.absent, FieldVal.absent,
        FieldVal.absent, [⟨10, 1, false⟩], []⟩)]

/-- A provider response for the C10 witness: one entry for item 7. -/
def fetchC10 : List ℤ → ItemsPayload := fun _ =>
  ItemsPayload.plain
    [⟨FieldVal.num 7, FieldVal.absent, FieldVal.absent, FieldVal.absent,
      [⟨42, 2, true⟩], []⟩]

/-- 205 identifiers for the C2 witness. -/
def idsC2 : List ℤ := (List.range 205).map Int.ofNat

/-- Attempt outcomes for the C3 witness: the first attempt fails with a
read timeout, every later attempt succeeds. -/
def attemptsC3 : ℕ → Except HErr ℕ := fun k =>
  if k = 0 then Except.error HErr.readTimeout else Except.ok 0

/-- The retryable categories exactly as claim C3 words them, over the
httpx error classes: a timeout (read, connect, write or pool timeout),
a connection failure (a connect timeout, or a connection error such as
connection refused, host unreachable or DNS failure), or a non-2xx HTTP
status.  This is the claim-side definition, to be compared with the
is_retryable predicate the source builds from its three exception
classes. -/
def claimRetryable : HErr → Bool
  | HErr.readTimeout => true
  | HErr.connectTimeout => true
  | HErr.writeTimeout => true
  | HErr.poolTimeout => true
  | HErr.connectError => true
  | HErr.httpStatusError => true
  | _ => false

/-- Claim C3 as stated, over the retry-loop model: whenever an executed
attempt fails with one of the claim categories (a timeout, a connection
failure, or a non-2xx HTTP status) and the configured attempt budget is
not yet exhausted, the policy retries (a further attempt runs). -/
def claimC3 : Prop :=
  ∀ (s : Settings) (attempts : ℕ → Except HErr ℕ) (j : ℕ) (e : HErr),
    j < (runRetry s attempts).2 → attempts j = Except.error e →
    claimRetryable e = true → j + 1 < max 1 s.RETRY_MAX →
    j + 1 < (runRetry s attempts).2

/-- Attempt outcomes for the C3 counterexample: every attempt fails with
a connection error (connection refused), which is a connection failure
in the sense of the claim but is not one of the three exception classes
the source retries on. -/
def attemptsC3cex : ℕ → Except HErr ℕ := fun _ => Except.error HErr.connectError

/-- A store holding a previously published advice generation for region
W, used by the C4 witness. -/
def storeC4 : Store := fun k =>
  if k = scoreKey "W" then some (RVal.str "oldscore")
  else if k = dataKey "W" then some (RVal.str "olddata")
  else none

/-- The snapshot of the C5 witness: one listing at 95 and a single
in-window sale at 1365, so the target is 1365, the roi is exactly 12 and
one unit was sold. -/
def snapC5 : Snapshot :=
  { listings := [{ price_per_unit := 95, quantity := 1, hq := false }],
    recentHistory := [{ price_per_unit := 1365, quantity := 1,
                        timestamp := 100000, hq := false }] }

/-- The history of the C6 witness: three in-window sales. -/
def histC6 : List Sale :=
  [{ price_per_unit := 7, quantity := 1, timestamp := 100000, hq := false },
   { price_per_unit := 3, quantity := 2, timestamp := 120000, hq := false },
   { price_per_unit := 5, quantity := 1, timestamp := 130000, hq := false }]

/-- Whether a normalized response entry resolves to an identifier whose
output slot is index i (used to characterize the processing fold). -/
def targetsB (ids : List ℤ) (i : ℕ) (e : RawEntry) : Bool :=
  match recoverId e with
  | some iid => decide (orderLookup ids iid = some i)
  | none => false

/-! ## Theorems -/

theorem defaultSettings_admissible : defaultSettings.admissible := by
  with_unfolding_all decide

theorem riskChain_iff (sc low med : ℚ) :
    ((if sc < low then RiskClass.alto
      else if sc < med then RiskClass.medio else RiskClass.basso) = RiskClass.alto
        ↔ sc < low) ∧
    ((if sc < low then RiskClass.alto
      else if sc < med then RiskClass.medio else RiskClass.basso) = RiskClass.medio
        ↔ low ≤ sc ∧ sc < med) ∧
    ((if sc < low then RiskClass.alto
      else if sc < med then RiskClass.medio else RiskClass.basso) = RiskClass.basso
        ↔ low ≤ sc ∧ med ≤ sc) := by
  split_ifs with h1 h2
  · exact ⟨iff_of_true rfl h1,
      iff_of_false (by simp) (fun hc => absurd h1 (not_lt.mpr hc.1)),
      iff_of_false (by simp) (fun hc => absurd h1 (not_lt.mpr hc.1))⟩
  · exact ⟨iff_of_false (by simp) h1,
      iff_of_true rfl ⟨not_lt.mp h1, h2⟩,
      iff_of_false (by simp) (fun hc => absurd h2 (not_lt.mpr hc.2))⟩
  · exact ⟨iff_of_false (by simp) h1,
      iff_of_false (by simp) (fun hc => absurd hc.2 h2),
      iff_of_true rfl ⟨not_lt.mp h1, not_lt.mp h2⟩⟩

/-- C7: roi returns 0 whenever cost is nonpositive, and otherwise
(netPrice times 1 minus the seller tax, minus cost times 1 plus the
buyer tax) divided by (cost times 1 plus the buyer tax), with both tax
fractions clamped into the unit interval; in particular
roi 110 100 0.05 0.05 equals (104.5 - 105) / 105. -/
theorem c7_roi_formula (net cost btax stax : ℚ) :
    (cost ≤ 0 → roi net cost btax stax = 0) ∧
    (0 < cost →
      roi net cost btax stax =
        (net * (1 - max 0 (min stax 1)) - cost * (1 + max 0 (min btax 1))) /
          (cost * (1 + max 0 (min btax 1)))) ∧
    roi 110 100 (1/20) (1/20) = (209/2 - 105) / 105 := by
  refine ⟨fun h => ?_, fun h => ?_, by with_unfolding_all decide⟩
  · rw [roi, if_pos h]
  · rw [roi, if_neg (not_le.mpr h)]

theorem c7_roi_formula_witness :
    ((-3 : ℚ) ≤ 0 ∧ roi 7 (-3) (1/20) (1/20) = 0) ∧
    ((0 : ℚ) < 100 ∧
      roi 110 100 (1/20) (1/20) =
        (110 * (1 - max 0 (min (1/20 : ℚ) 1)) - 100 * (1 + max 0 (min (1/20 : ℚ) 1))) /
          (100 * (1 + max 0 (min (1/20 : ℚ) 1)))) :=
  ⟨⟨by with_unfolding_all decide,
    (c7_roi_formula 7 (-3) (1/20) (1/20)).1 (by with_unfolding_all decide)⟩,
   ⟨by with_unfolding_all decide,
    (c7_roi_formula 110 100 (1/20) (1/20)).2.1 (by with_unfolding_all decide)⟩⟩

/-- C8: under every admissible configuration, compute_score returns the
score max(0, normRoi * wRoi + normVelocity * wSpd + normProfitPerDay *
wPpd - penalty) with the three clamped normalizations and the penalty
(saturated, unstable, competition) of the claim, and the risk class is
alto (high) exactly when the score is below ADVICE_RISK_LOW, medio
(medium) exactly when it is between the two thresholds, and basso (low)
otherwise. -/
theorem c8_compute_score_formula (s : Settings) (hs : s.admissible)
    (roi_value spd : ℚ) (flags : List Flag) (ppd : ℚ) (comp : ℕ) :
    (compute_score s roi_value spd flags ppd comp).1 =
      max 0 (max 0 (min 1 ((roi_value + 1/2) / (3/2))) * s.ADVICE_W_ROI
        + max 0 (min 1 (spd / s.ADVICE_SPD_NORM)) * s.ADVICE_W_SPD
        + max 0 (min 1 (ppd / s.ADVICE_PPD_NORM)) * s.ADVICE_W_PPD
        - ((if Flag.saturo ∈ flags then s.ADVICE_PENALTY_SATURO else 0)
           + (if Flag.instabile ∈ flags then s.ADVICE_PENALTY_INSTABILE else 0)
           + min 1 ((comp : ℚ) / 10) * s.ADVICE_PENALTY_COMP)) ∧
    ((compute_score s roi_value spd flags ppd comp).2 = RiskClass.alto ↔
      (compute_score s roi_value spd flags ppd comp).1 < s.ADVICE_RISK_LOW) ∧
    ((compute_score s roi_value spd flags ppd comp).2 = RiskClass.medio ↔
      (s.ADVICE_RISK_LOW ≤ (compute_score s roi_value spd flags ppd comp).1 ∧
       (compute_score s roi_value spd flags ppd comp).1 < s.ADVICE_RISK_MED)) ∧
    ((compute_score s roi_value spd flags ppd comp).2 = RiskClass.basso ↔
      (s.ADVICE_RISK_LOW ≤ (compute_score s roi_value spd flags ppd comp).1 ∧
       s.ADVICE_RISK_MED ≤ (compute_score s roi_value spd flags ppd comp).1)) := by
  have hmax : max (0 : ℚ) ((comp : ℕ) : ℚ) = (comp : ℚ) :=
    max_eq_right (Nat.cast_nonneg comp)
  have hscore : (compute_score s roi_value spd flags ppd comp).1 =
      max 0 (max 0 (min 1 ((roi_value + 1/2) / (3/2))) * s.ADVICE_W_ROI
        + max 0 (min 1 (spd / s.ADVICE_SPD_NORM)) * s.ADVICE_W_SPD
        + max 0 (min 1 (ppd / s.ADVICE_PPD_NORM)) * s.ADVICE_W_PPD
        - ((if Flag.saturo ∈ flags then s.ADVICE_PENALTY_SATURO else 0)
           + (if Flag.instabile ∈ flags then s.ADVICE_PENALTY_INSTABILE else 0)
           + min 1 ((comp : ℚ) / 10) * s.ADVICE_PENALTY_COMP)) := by
    simp only [compute_score, hmax]
    by_cases h1 : Flag.saturo ∈ flags <;> by_cases h2 : Flag.instabile ∈ flags <;>
      simp only [h1, h2, if_true, if_false, zero_add] <;>
      · congr 1
        ring
  refine ⟨hscore, ?_⟩
  have hrisk : (compute_score s roi_value spd flags ppd comp).2 =
      (if (compute_score s roi_value spd flags ppd comp).1 < s.ADVICE_RISK_LOW
         then RiskClass.alto
       else if (compute_score s roi_value spd flags ppd comp).1 < s.ADVICE_RISK_MED
         then RiskClass.medio else RiskClass.basso) := by
    simp only [compute_score]
  rw [hrisk]
  exact riskChain_iff _ _ _

theorem c8_compute_score_formula_witness :
    defaultSettings.admissible ∧
    (compute_score defaultSettings 12 (1/7) [] 195 1).1 =
      max 0 (max 0 (min 1 (((12 : ℚ) + 1/2) / (3/2))) * defaultSettings.ADVICE_W_ROI
        + max 0 (min 1 ((1/7 : ℚ) / defaultSettings.ADVICE_SPD_NORM)) * defaultSettings.ADVICE_W_SPD
        + max 0 (min 1 ((195 : ℚ) / defaultSettings.ADVICE_PPD_NORM)) * defaultSettings.ADVICE_W_PPD
        - ((if Flag.saturo ∈ ([] : List Flag) then defaultSettings.ADVICE_PENALTY_SATURO else 0)
           + (if Flag.instabile ∈ ([] : List Flag) then defaultSettings.ADVICE_PENALTY_INSTABILE else 0)
           + min 1 (((1 : ℕ) : ℚ) / 10) * defaultSettings.ADVICE_PENALTY_COMP)) :=
  ⟨defaultSettings_admissible,
   (c8_compute_score_formula defaultSettings defaultSettings_admissible
      12 (1/7) [] 195 1).1⟩

theorem pyRound_nonneg {x : ℚ} (hx : 0 ≤ x) : 0 ≤ pyRound x := by
  have h0 : (0 : ℤ) ≤ ⌊x⌋ := Int.floor_nonneg.mpr hx
  simp only [pyRound]
  split_ifs <;> omega

theorem pyRound_le_of_le {x : ℚ} {m : ℤ} (h : x ≤ (m : ℚ)) : pyRound x ≤ m := by
  have hfl : ⌊x⌋ ≤ m := by
    have h2 := Int.floor_le_floor h
    simpa using h2
  have hx : (⌊x⌋ : ℚ) ≤ x := Int.floor_le x
  simp only [pyRound]
  split_ifs with h1 h2 h3
  · exact hfl
  · by_contra hc
    have hml : m ≤ ⌊x⌋ := by omega
    have hcast : (m : ℚ) ≤ (⌊x⌋ : ℚ) := by exact_mod_cast hml
    have hr : 1/2 ≤ x - ⌊x⌋ := not_lt.mp h1
    linarith
  · exact hfl
  · by_contra hc
    have hml : m ≤ ⌊x⌋ := by omega
    have hcast : (m : ℚ) ≤ (⌊x⌋ : ℚ) := by exact_mod_cast hml
    have hr : 1/2 ≤ x - ⌊x⌋ := not_lt.mp h1
    linarith

theorem quantile_index_lt (ps : List ℚ) (q : ℚ) (hne : ps ≠ []) :
    (pyRound (((ps.length : ℚ) - 1) * max 0 (min 1 q))).toNat < ps.length := by
  have hn : 1 ≤ ps.length := List.length_pos.mpr hne
  have hn1 : (1 : ℚ) ≤ (ps.length : ℚ) := by exact_mod_cast hn
  have hqc0 : (0 : ℚ) ≤ max 0 (min 1 q) := le_max_left _ _
  have hqc1 : max 0 (min 1 q) ≤ 1 := max_le (by norm_num) (min_le_left _ _)
  have hx0 : (0 : ℚ) ≤ ((ps.length : ℚ) - 1) * max 0 (min 1 q) :=
    mul_nonneg (by linarith) hqc0
  have h1 := pyRound_nonneg hx0
  have h2 : pyRound (((ps.length : ℚ) - 1) * max 0 (min 1 q)) ≤ (ps.length : ℤ) - 1 :=
    pyRound_le_of_le (by push_cast; exact mul_le_of_le_one_right (by linarith) hqc1)
  omega

/-- C6: quantile_price sorts the in-window unit prices ascending and
returns the element at index round((n - 1) * q) (Python round, half to
even, q clamped into the unit interval), is none exactly when the window
is empty, and median_price equals quantile_price at q = 0.5 for every
history and window. -/
theorem c6_quantile_median (now : ℤ) (history : List Sale) (days : ℕ) (q : ℚ) :
    median_price now history days = quantile_price now history (1/2) days ∧
    (quantile_price now history q days = none ↔
      prices_in_window now history days = []) ∧
    (prices_in_window now history days ≠ [] →
      ∃ sorted : List ℚ,
        sorted.Perm (prices_in_window now history days) ∧
        List.Sorted (· ≤ ·) sorted ∧
        (pyRound ((((prices_in_window now history days).length : ℚ) - 1) *
            max 0 (min 1 q))).toNat < (prices_in_window now history days).length ∧
        quantile_price now history q days =
          sorted[(pyRound ((((prices_in_window now history days).length : ℚ) - 1) *
            max 0 (min 1 q))).toNat]?) := by
  refine ⟨rfl, ?_, ?_⟩
  · by_cases hne : prices_in_window now history days = []
    · simp [quantile_price, hne]
    · have hidx := quantile_index_lt (prices_in_window now history days) q hne
      have hlen : (List.insertionSort (· ≤ ·) (prices_in_window now history days)).length
          = (prices_in_window now history days).length :=
        (List.perm_insertionSort _ _).length_eq
      simp only [quantile_price, hne, if_false]
      rw [List.getElem?_eq_none_iff]
      simp only [iff_false]
      omega
  · intro hne
    refine ⟨List.insertionSort (· ≤ ·) (prices_in_window now history days),
      List.perm_insertionSort _ _, List.sorted_insertionSort _ _,
      quantile_index_lt _ q hne, ?_⟩
    simp only [quantile_price, hne, if_false]

theorem c6_quantile_median_witness :
    prices_in_window 700000 histC6 7 ≠ [] ∧
    (∃ sorted : List ℚ,
        sorted.Perm (prices_in_window 700000 histC6 7) ∧
        List.Sorted (· ≤ ·) sorted ∧
        (pyRound ((((prices_in_window 700000 histC6 7).length : ℚ) - 1) *
            max 0 (min 1 (1/2)))).toNat < (prices_in_window 700000 histC6 7).length ∧
        quantile_price 700000 histC6 (1/2) 7 =
          sorted[(pyRound ((((prices_in_window 700000 histC6 7).length : ℚ) - 1) *
            max 0 (min 1 (1/2)))).toNat]?) ∧
    quantile_price 700000 histC6 (1/2) 7 = some 5 ∧
    median_price 700000 histC6 7 = some 5 :=
  ⟨by with_unfolding_all decide,
   (c6_quantile_median 700000 histC6 7 (1/2)).2.2 (by with_unfolding_all decide),
   by with_unfolding_all decide,
   by with_unfolding_all decide⟩

theorem chunksGo_flatten (k : ℕ) (hk : 1 ≤ k) :
    ∀ (l buf : List ℤ), buf.length < k → (chunksGo k buf l).flatten = buf ++ l := by
  intro l
  induction l with
  | nil =>
    intro buf hb
    by_cases h : buf = [] <;> simp [chunksGo, h]
  | cons x xs ih =>
    intro buf hb
    simp only [chunksGo]
    split_ifs with h
    · have hih := ih [] (by simp only [List.length_nil]; omega)
      simp only [List.flatten_cons, hih]
      simp
    · have hl2 : (buf ++ [x]).length = buf.length + 1 := by simp
      rw [ih (buf ++ [x]) (by omega)]
      simp

theorem chunkLengths_add (k m : ℕ) (hk : 1 ≤ k) :
    chunkLengths k (k + m) = k :: chunkLengths k m := by
  unfold chunkLengths
  have h1 : (k + m) / k = m / k + 1 := by
    rw [Nat.add_comm k m]
    exact Nat.add_div_right m hk
  have h2 : (k + m) % k = m % k := by
    rw [Nat.add_comm k m]
    exact Nat.add_mod_right m k
  rw [h1, h2, List.replicate_succ, List.cons_append]

theorem chunksGo_lengths (k : ℕ) (hk : 1 ≤ k) :
    ∀ (l buf : List ℤ), buf.length < k →
      (chunksGo k buf l).map List.length = chunkLengths k (buf.length + l.length) := by
  intro l
  induction l with
  | nil =>
    intro buf hb
    by_cases h : buf = []
    · simp [chunksGo, h, chunkLengths]
    · have h1 : buf.length / k = 0 := Nat.div_eq_of_lt hb
      have h2 : buf.length % k = buf.length := Nat.mod_eq_of_lt hb
      have h3 : buf.length ≠ 0 := by simpa using h
      simp [chunksGo, h, chunkLengths, h1, h2, h3]
  | cons x xs ih =>
    intro buf hb
    simp only [chunksGo]
    split_ifs with h
    · have hl2 : (buf ++ [x]).length = buf.length + 1 := by simp
      have hbx : (buf ++ [x]).length = k := by omega
      have hih := ih [] (by simp only [List.length_nil]; omega)
      have harg : buf.length + (x :: xs).length = k + xs.length := by
        simp only [List.length_cons]
        omega
      rw [harg, chunkLengths_add k xs.length hk]
      simp only [List.map_cons, hbx, hih]
      simp
    · have hl2 : (buf ++ [x]).length = buf.length + 1 := by simp
      rw [ih (buf ++ [x]) (by omega)]
      congr 1
      simp only [List.length_cons]
      omega

/-- C2: get_items_world splits its identifier list into consecutive
chunks whose lengths are exactly 100 except for the nonzero remainder in
the last chunk (the chunks concatenate back to the input), and issues
one multi-item request per chunk; in particular 205 identifiers yield
exactly 3 requests carrying 100, 100 and 5 identifiers. -/
theorem c2_chunking :
    (∀ ids : List ℤ,
      (requestsOf ids).flatten = ids ∧
      (requestsOf ids).map List.length = chunkLengths 100 ids.length) ∧
    (∀ ids : List ℤ, ids.length = 205 →
      (requestsOf ids).map List.length = [100, 100, 5] ∧
      (requestsOf ids).length = 3) := by
  constructor
  · intro ids
    refine ⟨?_, ?_⟩
    · simpa using chunksGo_flatten 100 (by norm_num) ids [] (by norm_num)
    · simpa using chunksGo_lengths 100 (by norm_num) ids [] (by norm_num)
  · intro ids h205
    have h : (requestsOf ids).map List.length = chunkLengths 100 ids.length := by
      simpa using chunksGo_lengths 100 (by norm_num) ids [] (by norm_num)
    rw [h205] at h
    have hc : chunkLengths 100 205 = [100, 100, 5] := by decide
    rw [hc] at h
    refine ⟨h, ?_⟩
    have := congrArg List.length h
    simpa using this

theorem c2_chunking_witness :
    idsC2.length = 205 ∧
    (requestsOf idsC2).map List.length = [100, 100, 5] ∧
    (requestsOf idsC2).length = 3 := by
  have hlen : idsC2.length = 205 := by simp [idsC2]
  exact ⟨hlen, c2_chunking.2 idsC2 hlen⟩

theorem runRetryGo_lower {α : Type} (attempts : ℕ → Except HErr α) :
    ∀ (rem k : ℕ), k < (runRetryGo attempts k rem).2 := by
  intro rem
  induction rem with
  | zero =>
    intro k
    cases hak : attempts k <;> simp [runRetryGo, hak]
  | succ rem ih =>
    intro k
    cases hak : attempts k with
    | ok a => simp [runRetryGo, hak]
    | error e =>
      by_cases hr : is_retryable e = true
      · have := ih (k + 1)
        simp [runRetryGo, hak, hr]
        omega
      · simp at hr
        simp [runRetryGo, hak, hr]

theorem runRetryGo_upper {α : Type} (attempts : ℕ → Except HErr α) :
    ∀ (rem k : ℕ), (runRetryGo attempts k rem).2 ≤ k + rem + 1 := by
  intro rem
  induction rem with
  | zero =>
    intro k
    cases hak : attempts k <;> simp [runRetryGo, hak]
  | succ rem ih =>
    intro k
    cases hak : attempts k with
    | ok a => simp [runRetryGo, hak]
    | error e =>
      by_cases hr : is_retryable e = true
      · have := ih (k + 1)
        simp [runRetryGo, hak, hr]
        omega
      · simp at hr
        simp [runRetryGo, hak, hr]

theorem runRetryGo_last {α : Type} (attempts : ℕ → Except HErr α) :
    ∀ (rem k : ℕ),
      (runRetryGo attempts k rem).1 = attempts ((runRetryGo attempts k rem).2 - 1) := by
  intro rem
  induction rem with
  | zero =>
    intro k
    cases hak : attempts k <;> simp [runRetryGo, hak]
  | succ rem ih =>
    intro k
    cases hak : attempts k with
    | ok a => simp [runRetryGo, hak]
    | error e =>
      by_cases hr : is_retryable e = true
      · simp [runRetryGo, hak, hr]
        exact ih (k + 1)
      · simp at hr
        simp [runRetryGo, hak, hr]

theorem runRetryGo_mid {α : Type} (attempts : ℕ → Except HErr α) :
    ∀ (rem k j : ℕ), k ≤ j → j + 1 < (runRetryGo attempts k rem).2 →
      ∃ e, attempts j = Except.error e ∧ is_retryable e = true := by
  intro rem
  induction rem with
  | zero =>
    intro k j hkj hj
    cases hak : attempts k <;> simp [runRetryGo, hak] at hj <;> exact absurd hkj (by omega)
  | succ rem ih =>
    intro k j hkj hj
    cases hak : attempts k with
    | ok a =>
      simp [runRetryGo, hak] at hj
      omega
    | error e =>
      by_cases hr : is_retryable e = true
      · rcases Nat.eq_or_lt_of_le hkj with rfl | hlt
        · exact ⟨e, hak, hr⟩
        · simp only [runRetryGo, hak, hr, if_true] at hj
          exact ih (k + 1) j hlt hj
      · simp at hr
        simp [runRetryGo, hak, hr] at hj
        omega

theorem runRetryGo_nonretry {α : Type} (attempts : ℕ → Except HErr α) :
    ∀ (rem k j : ℕ) (e : HErr), k ≤ j → j < (runRetryGo attempts k rem).2 →
      attempts j = Except.error e → is_retryable e = false →
      (runRetryGo attempts k rem).2 = j + 1 := by
  intro rem
  induction rem with
  | zero =>
    intro k j e hkj hj hje hre
    cases hak : attempts k <;> simp [runRetryGo, hak] at hj ⊢ <;> omega
  | succ rem ih =>
    intro k j e hkj hj hje hre
    cases hak : attempts k with
    | ok a =>
      simp [runRetryGo, hak] at hj ⊢
      have : j = k := by omega
      rw [this, hak] at hje
      exact absurd hje (by simp)
    | error e0 =>
      by_cases hr : is_retryable e0 = true
      · rcases Nat.eq_or_lt_of_le hkj with rfl | hlt
        · rw [hak] at hje
          have : e0 = e := by injection hje
          rw [this] at hr
          rw [hr] at hre
          exact absurd hre (by simp)
        · simp only [runRetryGo, hak, hr, if_true] at hj ⊢
          exact ih (k + 1) j e hlt hj hje hre
      · simp at hr
        simp [runRetryGo, hak, hr] at hj ⊢
        omega

theorem runRetryGo_retrycont {α : Type} (attempts : ℕ → Except HErr α) :
    ∀ (rem k j : ℕ) (e : HErr), k ≤ j → j < (runRetryGo attempts k rem).2 →
      attempts j = Except.error e → is_retryable e = true →
      j + 1 < k + rem + 1 → j + 1 < (runRetryGo attempts k rem).2 := by
  intro rem
  induction rem with
  | zero =>
    intro k j e hkj hj hje hre hcap
    omega
  | succ rem ih =>
    intro k j e hkj hj hje hre hcap
    cases hak : attempts k with
    | ok a =>
      simp [runRetryGo, hak] at hj ⊢
      have : j = k := by omega
      rw [this, hak] at hje
      exact absurd hje (by simp)
    | error e0 =>
      by_cases hr : is_retryable e0 = true
      · simp only [runRetryGo, hak, hr, if_true] at hj ⊢
        rcases Nat.eq_or_lt_of_le hkj with rfl | hlt
        · exact runRetryGo_lower attempts rem (k + 1)
        · exact ih (k + 1) j e hlt hj hje hre (by omega)
      · simp at hr
        simp [runRetryGo, hak, hr] at hj
        have : j = k := by omega
        rw [this, hak] at hje
        have he : e0 = e := by injection hje
        rw [he] at hr
        rw [hr] at hre
        exact absurd hre (by simp)

/-- C3 (amended): the retry policy shared by get_item_world and
get_items_world (the tenacity retryer of universalis.py lines 16-24)
retries an attempt exactly when it fails with a read timeout, a connect
timeout, or an HTTP status error (raise_for_status raises it exactly on
a non-2xx response), up to RETRY_MAX attempts in total, sleeping the
capped exponential backoff 0.2 times 2 to the attempt number clamped
into [0.2, 3]; any failure of another class — including connection
failures that are not connect timeouts (such as connection refused),
write and pool timeouts, and malformed payloads — ends the run at that
attempt and propagates to the caller.  (The claim as stated said every
timeout and every connection failure is retried; the counterexample
shows a connection error is not.) -/
theorem c3_retry_policy (s : Settings) (α : Type) (attempts : ℕ → Except HErr α) :
    (∀ e, is_retryable e = true ↔
      (e = HErr.readTimeout ∨ e = HErr.connectTimeout ∨ e = HErr.httpStatusError)) ∧
    1 ≤ (runRetry s attempts).2 ∧
    (runRetry s attempts).2 ≤ max 1 s.RETRY_MAX ∧
    (runRetry s attempts).1 = attempts ((runRetry s attempts).2 - 1) ∧
    (∀ j, j + 1 < (runRetry s attempts).2 →
      ∃ e, attempts j = Except.error e ∧ is_retryable e = true) ∧
    (∀ j e, j < (runRetry s attempts).2 → attempts j = Except.error e →
      is_retryable e = false →
      (runRetry s attempts).2 = j + 1 ∧ (runRetry s attempts).1 = Except.error e) ∧
    (∀ j e, j < (runRetry s attempts).2 → attempts j = Except.error e →
      is_retryable e = true → j + 1 < max 1 s.RETRY_MAX →
      j + 1 < (runRetry s attempts).2) ∧
    (∀ n, 1/5 ≤ backoffDelay n ∧ backoffDelay n ≤ 3 ∧
      backoffDelay n ≤ backoffDelay (n + 1)) := by
  refine ⟨?_, ?_, ?_, ?_, ?_, ?_, ?_, ?_⟩
  · intro e
    cases e <;> simp [is_retryable]
  · have := runRetryGo_lower attempts (s.RETRY_MAX - 1) 0
    unfold runRetry
    omega
  · have := runRetryGo_upper attempts (s.RETRY_MAX - 1) 0
    unfold runRetry
    omega
  · exact runRetryGo_last attempts (s.RETRY_MAX - 1) 0
  · intro j hj
    exact runRetryGo_mid attempts (s.RETRY_MAX - 1) 0 j (Nat.zero_le j) hj
  · intro j e hj hje hre
    have h2 := runRetryGo_nonretry attempts (s.RETRY_MAX - 1) 0 j e (Nat.zero_le j) hj hje hre
    refine ⟨h2, ?_⟩
    have h3 := runRetryGo_last attempts (s.RETRY_MAX - 1) 0
    unfold runRetry at h2 ⊢
    rw [h3, h2]
    simpa using hje
  · intro j e hj hje hre hcap
    exact runRetryGo_retrycont attempts (s.RETRY_MAX - 1) 0 j e (Nat.zero_le j) hj hje hre
      (by omega)
  · intro n
    refine ⟨le_max_left _ _, max_le (by norm_num) (min_le_left _ _), ?_⟩
    refine max_le_max le_rfl (min_le_min le_rfl ?_)
    have h2 : (2 : ℚ) ^ n ≤ 2 ^ (n + 1) :=
      pow_le_pow_right (by norm_num) (Nat.le_succ n)
    nlinarith

theorem c3_retry_policy_witness :
    (is_retryable HErr.connectError = true ↔
      (HErr.connectError = HErr.readTimeout ∨ HErr.connectError = HErr.connectTimeout ∨
       HErr.connectError = HErr.httpStatusError)) ∧
    1 ≤ (runRetry defaultSettings attemptsC3).2 ∧
    (runRetry defaultSettings attemptsC3).2 ≤ max 1 defaultSettings.RETRY_MAX ∧
    (∃ e, attemptsC3 0 = Except.error e ∧ is_retryable e = true) ∧
    (runRetry defaultSettings attemptsC3).2 = 2 ∧
    (runRetry defaultSettings attemptsC3).1 = Except.ok 0 := by
  have h := c3_retry_policy defaultSettings ℕ attemptsC3
  refine ⟨h.1 HErr.connectError, h.2.1, h.2.2.1, h.2.2.2.2.1 0 (by decide), by decide,
    by with_unfolding_all rfl⟩

/-- C3 counterexample: the claim as stated is false.  A connection
failure that is not a connect timeout — here connection refused,
httpx.ConnectError, with every attempt failing that way under the
default RETRY_MAX = 3 — is in the claim categories, the attempt budget
allows two further attempts, yet the retryer of the source makes
exactly one attempt and propagates the error immediately, because its
retry predicate covers only ReadTimeout, ConnectTimeout and
HTTPStatusError. -/
theorem c3_retry_counterexample :
    ¬ claimC3 ∧
    claimRetryable HErr.connectError = true ∧
    is_retryable HErr.connectError = false ∧
    1 < max 1 defaultSettings.RETRY_MAX ∧
    (runRetry defaultSettings attemptsC3cex).2 = 1 ∧
    (runRetry defaultSettings attemptsC3cex).1 = Except.error HErr.connectError := by
  refine ⟨?_, rfl, rfl, by decide, by decide, by with_unfolding_all rfl⟩
  intro h
  have h2 := h defaultSettings attemptsC3cex 0 HErr.connectError (by decide) rfl rfl
    (by decide)
  exact absurd h2 (by decide)

theorem foldl_writes_pres {β : Type} (P : CacheWrite → Prop)
    (step : List CacheWrite → β → List CacheWrite)
    (hstep : ∀ ws b, (∀ w ∈ ws, P w) → ∀ w ∈ step ws b, P w) :
    ∀ (l : List β) (ws : List CacheWrite), (∀ w ∈ ws, P w) →
      ∀ w ∈ l.foldl step ws, P w := by
  intro l
  induction l with
  | nil =>
    intro ws hws
    simpa using hws
  | cons b bs ih =>
    intro ws hws
    exact ih _ (hstep ws b hws)

theorem giww_mem (s : Settings) (world : String) (ids : List ℤ)
    (fetch : List ℤ → ItemsPayload) :
    ∀ w ∈ get_items_world_writes s world ids fetch,
      (∃ iid vl, w = CacheWrite.wlist world iid vl s.CACHE_TTL_SHORT) ∨
      (∃ iid vh, w = CacheWrite.whist world iid vh s.CACHE_TTL_LONG) := by
  unfold get_items_world_writes
  split_ifs with h
  · simp
  · refine foldl_writes_pres _ _ ?_ (requestsOf ids) [] (by simp)
    intro ws g hws
    refine foldl_writes_pres _ _ ?_ (itemsList (fetch g)) ws hws
    intro ws2 e hws2 w hw
    cases hre : recoverId e with
    | none =>
      simp only [hre] at hw
      exact hws2 w hw
    | some iid =>
      cases hol : orderLookup ids iid with
      | none =>
        simp only [hre, hol] at hw
        exact hws2 w hw
      | some idx =>
        simp only [hre, hol] at hw
        rcases List.mem_append.mp hw with hin | hnew
        · exact hws2 w hin
        · rcases List.mem_cons.mp hnew with h1 | h1
          · exact Or.inl ⟨iid, e.listings, h1⟩
          · rcases List.mem_cons.mp h1 with h2 | h2
            · exact Or.inr ⟨iid, e.recentHistory, h2⟩
            · exact absurd h2 (List.not_mem_nil _)

/-- C9 (amended): the claim as stated quantifies over every admissible
configuration, but the pydantic validation does not relate the two ttl
fields; under the added hypothesis CACHE_TTL_SHORT at most
CACHE_TTL_LONG (satisfied by the defaults 600 and 43200), every cached
snapshot written by get_item_world or by get_items_world applies a
listings ttl at most the history ttl of the same (region, item) pair. -/
theorem c9_ttl_amended (s : Settings) (hs : s.admissible)
    (hle : s.CACHE_TTL_SHORT ≤ s.CACHE_TTL_LONG) :
    (∀ world item_id cl ch resp,
      ttlPairsOrdered (get_item_world s world item_id cl ch resp).2) ∧
    (∀ world ids fetch,
      ttlPairsOrdered (get_items_world_writes s world ids fetch)) := by
  constructor
  · intro world item_id cl ch resp world2 iid vl tl vh th hl hh
    cases cl with
    | some cl0 =>
      cases ch with
      | some ch0 =>
        simp [get_item_world] at hl
      | none =>
        simp [get_item_world] at hl hh
        rw [hl.2.2.2, hh.2.2.2]
        exact hle
    | none =>
      cases ch with
      | some ch0 =>
        simp [get_item_world] at hl hh
        rw [hl.2.2.2, hh.2.2.2]
        exact hle
      | none =>
        simp [get_item_world] at hl hh
        rw [hl.2.2.2, hh.2.2.2]
        exact hle
  · intro world ids fetch world2 iid vl tl vh th hl hh
    have h1 := giww_mem s world ids fetch _ hl
    have h2 := giww_mem s world ids fetch _ hh
    have htl : tl = s.CACHE_TTL_SHORT := by
      rcases h1 with ⟨iid2, vl2, heq⟩ | ⟨iid2, vh2, heq⟩
      · simp only [CacheWrite.wlist.injEq] at heq
        exact heq.2.2.2
      · exact absurd heq (by simp)
    have hth : th = s.CACHE_TTL_LONG := by
      rcases h2 with ⟨iid2, vl2, heq⟩ | ⟨iid2, vh2, heq⟩
      · exact absurd heq (by simp)
      · simp only [CacheWrite.whist.injEq] at heq
        exact heq.2.2.2
    rw [htl, hth]
    exact hle

/-- C9 counterexample: the claim as stated is false.  The configuration
with CACHE_TTL_SHORT = 2 and CACHE_TTL_LONG = 1 passes every pydantic
bound (both need only be nonnegative), and a cache-missing
get_item_world under it writes the listings of item 1 of region W with
ttl 2 and its history with ttl 1, so the listings ttl exceeds the
history ttl. -/
theorem c9_ttl_counterexample : ¬ claimC9 := by
  intro h
  have h1 := (h settingsC9cex (by with_unfolding_all decide)).1 "W" 1 none none emptySnap
  have h2 := h1 "W" 1 [] 2 [] 1 (by decide) (by decide)
  exact absurd h2 (by decide)

theorem c9_ttl_amended_witness :
    defaultSettings.admissible ∧
    defaultSettings.CACHE_TTL_SHORT ≤ defaultSettings.CACHE_TTL_LONG ∧
    (600 : ℤ) ≤ 43200 := by
  refine ⟨defaultSettings_admissible, by decide, ?_⟩
  have h := (c9_ttl_amended defaultSettings defaultSettings_admissible
      (by decide)).1 "W" 1 none none emptySnap "W" 1 [] 600 [] 43200
      (by decide) (by decide)
  exact h

theorem suspect_iff (s : Settings) (rroi p_unit : ℚ) (sold : ℕ) (cv : Option ℚ) :
    suspect s rroi p_unit sold cv = true ↔ suspectClaim s rroi p_unit sold cv := by
  simp [suspect, suspectClaim, Bool.or_eq_true, Bool.and_eq_true, decide_eq_true_iff]

theorem lowestOf_ne_nil {snap : Snapshot} {low : ℤ} (h : lowestOf snap = some low) :
    snap.listings ≠ [] := by
  intro hcon
  rw [lowestOf, hcon] at h
  simp [listMin] at h

set_option maxRecDepth 100000 in
/-- C5: during the full scan, once the per-item guards pass (the item
has a lowest listing price and a target price), the candidate is
discarded, silently and before any ranking, exactly when the anti-fraud
formula of the claim holds on its metrics: roi above
ADVICE_SUSPECT_ROI and (units sold below ADVICE_MIN_SALES_SAFE or
price cv above ADVICE_SUSPECT_CV), or unit profit above
ADVICE_SUSPECT_ABS_PROFIT and units sold below ADVICE_MIN_SALES_SAFE.
In particular the concrete candidate of snapC5 has roi exactly 12 with
one unit sold (below the default minimum 5) and is excluded. -/
theorem c5_antifraud :
    (∀ (s : Settings) (now iid : ℤ) (snap : Snapshot) (low : ℤ) (t : ℚ),
      lowestOf snap = some low →
      tgtOf now snap.recentHistory = some t →
      (processItem s now iid snap = none ↔
        suspectClaim s (roi t (low : ℚ) (1/20) (1/20))
          (net_profit_unit t (low : ℚ) (1/20) (1/20))
          (units_sold now snap.recentHistory 7)
          (price_cv_sq now snap.recentHistory 7))) ∧
    roi 1365 ((95 : ℤ) : ℚ) (1/20) (1/20) = 12 ∧
    units_sold 700000 snapC5.recentHistory 7 = 1 ∧
    processItem defaultSettings 700000 7 snapC5 = none := by
  refine ⟨?_, by with_unfolding_all decide, by with_unfolding_all decide,
    by with_unfolding_all decide⟩
  intro s now iid snap low t hlow ht
  have hl : snap.listings ≠ [] := lowestOf_ne_nil hlow
  simp only [processItem, hlow, ht]
  rw [if_neg (by
    intro hcon
    exact hl hcon.1)]
  split_ifs with hsus
  · exact iff_of_true rfl ((suspect_iff s _ _ _ _).mp hsus)
  · exact iff_of_false (by simp) (fun hc => hsus ((suspect_iff s _ _ _ _).mpr hc))

set_option maxRecDepth 100000 in
theorem c5_antifraud_witness :
    lowestOf snapC5 = some 95 ∧
    tgtOf 700000 snapC5.recentHistory = some 1365 ∧
    (processItem defaultSettings 700000 7 snapC5 = none ↔
      suspectClaim defaultSettings (roi 1365 ((95 : ℤ) : ℚ) (1/20) (1/20))
        (net_profit_unit 1365 ((95 : ℤ) : ℚ) (1/20) (1/20))
        (units_sold 700000 snapC5.recentHistory 7)
        (price_cv_sq 700000 snapC5.recentHistory 7)) := by
  refine ⟨by with_unfolding_all decide, by with_unfolding_all decide, ?_⟩
  exact c5_antifraud.1 defaultSettings 700000 7 snapC5 95 1365
    (by with_unfolding_all decide) (by with_unfolding_all decide)

theorem orderLookup_none {ids : List ℤ} {iid : ℤ}
    (h : orderLookup ids iid = none) : ∀ k : ℕ, ids[k]? ≠ some iid := by
  induction ids generalizing iid with
  | nil => intro k; simp
  | cons x xs ih =>
    intro k
    cases holx : orderLookup xs iid with
    | some j => simp [orderLookup, holx] at h
    | none =>
      simp only [orderLookup, holx] at h
      have hx : x ≠ iid := by
        intro hcon
        rw [if_pos hcon] at h
        exact absurd h (by simp)
      cases k with
      | zero => simp [hx]
      | succ k2 => simpa using ih holx k2

theorem orderLookup_getElem {ids : List ℤ} {iid : ℤ} {i : ℕ}
    (h : orderLookup ids iid = some i) : ids[i]? = some iid := by
  induction ids generalizing i with
  | nil => simp [orderLookup] at h
  | cons x xs ih =>
    cases holx : orderLookup xs iid with
    | some j =>
      simp only [orderLookup, holx, Option.some.injEq] at h
      cases i with
      | zero => omega
      | succ i2 =>
        have : j = i2 := by omega
        rw [this] at holx
        simpa using ih holx
    | none =>
      simp only [orderLookup, holx] at h
      by_cases hx : x = iid
      · rw [if_pos hx] at h
        have : i = 0 := by
          injection h with h2
          omega
        rw [this, hx]
        simp
      · rw [if_neg hx] at h
        exact absurd h (by simp)

theorem orderLookup_last {ids : List ℤ} {iid : ℤ} {i : ℕ}
    (h : orderLookup ids iid = some i) : ∀ j : ℕ, i < j → ids[j]? ≠ some iid := by
  induction ids generalizing i with
  | nil => simp [orderLookup] at h
  | cons x xs ih =>
    intro j hij
    cases holx : orderLookup xs iid with
    | some k =>
      simp only [orderLookup, holx, Option.some.injEq] at h
      cases j with
      | zero => omega
      | succ j2 =>
        have hk : k < j2 := by omega
        simpa using ih holx j2 hk
    | none =>
      cases j with
      | zero => omega
      | succ j2 => simpa using orderLookup_none holx j2

theorem orderLookup_of_last {ids : List ℤ} {iid : ℤ} {i : ℕ}
    (hget : ids[i]? = some iid) (hlast : ∀ j : ℕ, i < j → ids[j]? ≠ some iid) :
    orderLookup ids iid = some i := by
  induction ids generalizing i with
  | nil => simp at hget
  | cons x xs ih =>
    cases i with
    | zero =>
      simp only [List.getElem?_cons_zero, Option.some.injEq] at hget
      have hnone : orderLookup xs iid = none := by
        cases holx : orderLookup xs iid with
        | none => rfl
        | some k =>
          have hk := orderLookup_getElem holx
          have := hlast (k + 1) (Nat.succ_pos k)
          rw [List.getElem?_cons_succ] at this
          exact absurd hk this
      simp [orderLookup, hnone, hget]
    | succ i2 =>
      rw [List.getElem?_cons_succ] at hget
      have hlast2 : ∀ j : ℕ, i2 < j → xs[j]? ≠ some iid := by
        intro j hj
        have := hlast (j + 1) (by omega)
        rwa [List.getElem?_cons_succ] at this
      have := ih hget hlast2
      simp [orderLookup, this]

theorem orderLookup_nodup {ids : List ℤ} (hnd : ids.Nodup) (i : ℕ)
    (hi : i < ids.length) :
    orderLookup ids (ids.get ⟨i, hi⟩) = some i := by
  apply orderLookup_of_last
  · rw [List.getElem?_eq_getElem hi]
    simp [List.get_eq_getElem]
  · intro j hj
    by_cases hjl : j < ids.length
    · rw [List.getElem?_eq_getElem hjl]
      intro hcon
      injection hcon with hcon2
      have heq2 : ids[j] = ids[i] := by
        rw [List.get_eq_getElem] at hcon2
        exact hcon2
      have : j = i := (List.Nodup.getElem_inj_iff hnd).mp heq2
      omega
    · rw [List.getElem?_eq_none (by omega)]
      simp

theorem get_mk_eq_getElem {α : Type} (l : List α) (i : ℕ) (hi : i < l.length) :
    l.get ⟨i, hi⟩ = l[i] := rfl

theorem foldl_replace_or {α : Type} (l : List α) :
    ∀ init : Option α, l.foldl (fun _ s => some s) init = (l.getLast?).or init := by
  induction l with
  | nil => intro init; simp
  | cons a l ih =>
    intro init
    simp only [List.foldl_cons]
    rw [ih (some a)]
    cases hl : l.getLast? with
    | none =>
      have hnil := List.getLast?_eq_none_iff.mp hl
      subst hnil
      simp
    | some b =>
      have hcons : (a :: l).getLast? = some b := by
        cases l with
        | nil => simp at hl
        | cons c l2 =>
          rw [List.getLast?_cons_cons]
          exact hl
      rw [hcons]
      simp

theorem processFold_getElem (ids : List ℤ) (es : List RawEntry) :
    ∀ (st : List Snapshot) (i : ℕ), st.length = ids.length → i < ids.length →
      (es.foldl (processEntry ids) st)[i]? =
        ((es.filter (targetsB ids i)).map
            (fun e => (⟨e.listings, e.recentHistory⟩ : Snapshot))).foldl
          (fun _ snap => some snap) st[i]? := by
  induction es with
  | nil =>
    intro st i hlen hi
    simp
  | cons e es ih =>
    intro st i hlen hi
    simp only [List.foldl_cons, List.filter_cons]
    cases hre : recoverId e with
    | none =>
      have hpe : processEntry ids st e = st := by simp [processEntry, hre]
      have hfe : targetsB ids i e = false := by simp [targetsB, hre]
      rw [hpe, hfe]
      simpa using ih st i hlen hi
    | some iid =>
      cases hol : orderLookup ids iid with
      | none =>
        have hpe : processEntry ids st e = st := by simp [processEntry, hre, hol]
        have hfe : targetsB ids i e = false := by simp [targetsB, hre, hol]
        rw [hpe, hfe]
        simpa using ih st i hlen hi
      | some idx =>
        have hpe : processEntry ids st e =
            st.set idx ⟨e.listings, e.recentHistory⟩ := by
          simp [processEntry, hre, hol]
        by_cases hidx : idx = i
        · rw [hidx] at hpe hol
          have hfe : targetsB ids i e = true := by simp [targetsB, hre, hol]
          rw [hpe, hfe]
          rw [ih (st.set i ⟨e.listings, e.recentHistory⟩) i (by simpa using hlen) hi]
          have hset : (st.set i ⟨e.listings, e.recentHistory⟩)[i]? =
              some (⟨e.listings, e.recentHistory⟩ : Snapshot) := by
            rw [List.getElem?_set]
            simp [hlen, hi]
          rw [hset]
          simp
        · have hfe : targetsB ids i e = false := by
            simp [targetsB, hre, hol, hidx]
          rw [hpe, hfe]
          have hset : (st.set idx ⟨e.listings, e.recentHistory⟩)[i]? = st[i]? := by
            rw [List.getElem?_set]
            simp [hidx]
          rw [← hset]
          simpa using ih (st.set idx ⟨e.listings, e.recentHistory⟩) i
            (by simpa using hlen) hi

theorem processFold_length (ids : List ℤ) (es : List RawEntry) :
    ∀ st : List Snapshot, (es.foldl (processEntry ids) st).length = st.length := by
  induction es with
  | nil => intro st; rfl
  | cons e es ih =>
    intro st
    rw [List.foldl_cons, ih]
    cases hre : recoverId e with
    | none => simp [processEntry, hre]
    | some iid =>
      cases hol : orderLookup ids iid with
      | none => simp [processEntry, hre, hol]
      | some idx => simp [processEntry, hre, hol]

theorem giw_eq_fold (ids : List ℤ) (fetch : List ℤ → ItemsPayload)
    (hne : ids ≠ []) :
    get_items_world ids fetch =
      (allEntries ids fetch).foldl (processEntry ids)
        (List.replicate ids.length emptySnap) := by
  unfold get_items_world allEntries
  rw [if_neg hne, List.foldl_flatten, List.foldl_map]
  rfl

theorem giw_length (ids : List ℤ) (fetch : List ℤ → ItemsPayload) :
    (get_items_world ids fetch).length = ids.length := by
  by_cases hne : ids = []
  · simp [get_items_world, hne]
  · rw [giw_eq_fold ids fetch hne, processFold_length]
    simp

theorem giw_slot (ids : List ℤ) (fetch : List ℤ → ItemsPayload)
    (hne : ids ≠ []) (i : ℕ) (hi : i < ids.length) :
    (get_items_world ids fetch)[i]? =
      some (if orderLookup ids (ids.get ⟨i, hi⟩) = some i
            then snapshotFor ids fetch (ids.get ⟨i, hi⟩) else emptySnap) := by
  rw [giw_eq_fold ids fetch hne]
  rw [processFold_getElem ids (allEntries ids fetch)
    (List.replicate ids.length emptySnap) i (by simp) hi]
  rw [foldl_replace_or]
  have hrep : (List.replicate ids.length emptySnap)[i]? = some emptySnap := by
    simp [List.getElem?_replicate, hi]
  rw [hrep]
  split_ifs with hlast
  · have hfeq : (allEntries ids fetch).filter (targetsB ids i) =
        (allEntries ids fetch).filter
          (fun e => recoverId e = some (ids.get ⟨i, hi⟩)) := by
      apply List.filter_congr
      intro e _
      cases hre : recoverId e with
      | none => simp [targetsB, hre]
      | some iid =>
        simp only [targetsB, hre, Option.some.injEq]
        apply decide_eq_decide.mpr
        constructor
        · intro hcon
          have hg := orderLookup_getElem hcon
          rw [List.getElem?_eq_getElem hi] at hg
          injection hg with hg2
          rw [← hg2]
          simp [List.get_eq_getElem]
        · intro heq
          rw [heq]
          exact hlast
    rw [hfeq, snapshotFor]
    rw [List.getLast?_map]
    cases hgl : ((allEntries ids fetch).filter
        (fun e => recoverId e = some (ids.get ⟨i, hi⟩))).getLast? with
    | none => simp
    | some e => simp
  · have hfe : (allEntries ids fetch).filter (targetsB ids i) = [] := by
      rw [List.filter_eq_nil_iff]
      intro e hmem
      cases hre : recoverId e with
      | none => simp [targetsB, hre]
      | some iid =>
        simp only [targetsB, hre, decide_eq_true_eq]
        intro hcon
        have hg := orderLookup_getElem hcon
        rw [List.getElem?_eq_getElem hi] at hg
        injection hg with hg2
        rw [get_mk_eq_getElem ids i hi, hg2] at hlast
        exact hlast hcon
    rw [hfe]
    simp

/-- C1 (amended): for every non-empty identifier list and provider
response shape, get_items_world returns a list of the same length as
the input; and when the identifier list has no duplicates, the element
at position i is the snapshot the responses hold for ids[i] (the
pre-initialized empty snapshot when no entry matches), whether the
provider answers with a keyed map or a plain list and in any entry
order.  (As stated the claim also covered duplicate identifier lists,
where it fails: see the counterexample and C10.) -/
theorem c1_alignment (ids : List ℤ) (fetch : List ℤ → ItemsPayload)
    (hne : ids ≠ []) :
    (get_items_world ids fetch).length = ids.length ∧
    (ids.Nodup → ∀ i (hi : i < ids.length),
      (get_items_world ids fetch)[i]? =
        some (snapshotFor ids fetch (ids.get ⟨i, hi⟩))) := by
  refine ⟨giw_length ids fetch, ?_⟩
  intro hnd i hi
  rw [giw_slot ids fetch hne i hi]
  rw [if_pos (orderLookup_nodup hnd i hi)]

/-- C1 counterexample: with the duplicate identifier list [1, 1] and a
response carrying a listing for item 1, the element at position 0 is
the empty snapshot and not the snapshot for ids[0] = 1, so the claim as
stated (for every non-empty identifier list, every position carries the
snapshot for its identifier) is false. -/
theorem c1_alignment_counterexample :
    (get_items_world [1, 1] fetchC1)[0]? = some emptySnap ∧
    snapshotFor [1, 1] fetchC1 1 ≠ emptySnap ∧
    (get_items_world [1, 1] fetchC1)[0]? ≠
      some (snapshotFor [1, 1] fetchC1 1) := by
  refine ⟨?_, ?_, ?_⟩ <;> with_unfolding_all decide

theorem c1_alignment_witness :
    ([1, 2] : List ℤ) ≠ [] ∧ ([1, 2] : List ℤ).Nodup ∧
    (get_items_world [1, 2] fetchC1wit).length = 2 ∧
    (get_items_world [1, 2] fetchC1wit)[0]? =
      some (snapshotFor [1, 2] fetchC1wit (([1, 2] : List ℤ).get ⟨0, by decide⟩)) ∧
    (get_items_world [1, 2] fetchC1wit)[1]? =
      some (snapshotFor [1, 2] fetchC1wit (([1, 2] : List ℤ).get ⟨1, by decide⟩)) := by
  have h := c1_alignment [1, 2] fetchC1wit (by decide)
  have hnd : ([1, 2] : List ℤ).Nodup := by decide
  exact ⟨by decide, hnd, h.1, h.2 hnd 0 (by decide), h.2 hnd 1 (by decide)⟩

/-- C10: when the input identifier list contains the same identifier at
several positions, the returned list still has the length of the input,
every position whose identifier occurs again later keeps the
pre-initialized empty snapshot, and the last position of each
identifier receives the fetched snapshot (the order dict maps each
identifier to its last index). -/
theorem c10_duplicates (ids : List ℤ) (fetch : List ℤ → ItemsPayload)
    (hne : ids ≠ []) :
    (get_items_world ids fetch).length = ids.length ∧
    (∀ i j (hi : i < ids.length) (hj : j < ids.length), i < j →
      ids.get ⟨j, hj⟩ = ids.get ⟨i, hi⟩ →
      (get_items_world ids fetch)[i]? = some emptySnap) ∧
    (∀ i (hi : i < ids.length),
      (∀ j (hj : j < ids.length), i < j → ids.get ⟨j, hj⟩ ≠ ids.get ⟨i, hi⟩) →
      (get_items_world ids fetch)[i]? =
        some (snapshotFor ids fetch (ids.get ⟨i, hi⟩))) := by
  refine ⟨giw_length ids fetch, ?_, ?_⟩
  · intro i j hi hj hij heq
    rw [giw_slot ids fetch hne i hi]
    rw [if_neg ?holn]
    case holn =>
      intro hcon
      have hlater := orderLookup_last hcon j hij
      rw [List.getElem?_eq_getElem hj] at hlater
      exact hlater (congrArg some ((get_mk_eq_getElem ids j hj).symm.trans heq))
  · intro i hi hlastpos
    rw [giw_slot ids fetch hne i hi]
    rw [if_pos ?holp]
    case holp =>
      apply orderLookup_of_last
      · rw [List.getElem?_eq_getElem hi]
        simp [List.get_eq_getElem]
      · intro j hj
        by_cases hjl : j < ids.length
        · rw [List.getElem?_eq_getElem hjl]
          intro hcon
          injection hcon with hcon2
          apply hlastpos j hjl hj
          rw [List.get_eq_getElem]
          exact hcon2
        · rw [List.getElem?_eq_none (by omega)]
          simp

theorem c10_duplicates_witness :
    ([7, 7] : List ℤ) ≠ [] ∧
    (get_items_world [7, 7] fetchC10).length = 2 ∧
    (get_items_world [7, 7] fetchC10)[0]? = some emptySnap ∧
    (get_items_world [7, 7] fetchC10)[1]? =
      some (snapshotFor [7, 7] fetchC10 (([7, 7] : List ℤ).get ⟨1, by decide⟩)) ∧
    snapshotFor [7, 7] fetchC10 7 = ⟨[⟨42, 2, true⟩], []⟩ := by
  have h := c10_duplicates [7, 7] fetchC10 (by decide)
  refine ⟨by decide, h.1,
    h.2.1 0 1 (by decide) (by decide) (by decide) (by decide),
    h.2.2 1 (by decide) ?_, by with_unfolding_all decide⟩
  intro j hj hlt
  have h2 : ([7, 7] : List ℤ).length = 2 := rfl
  exact absurd hj (by omega)

theorem str_data_append (a b : String) : (a ++ b).data = a.data ++ b.data := rfl

theorem str_append_cancel {a b c : String} (h : a ++ b = a ++ c) : b = c := by
  have h2 : (a ++ b).data = (a ++ c).data := congrArg String.data h
  rw [str_data_append, str_data_append] at h2
  exact String.ext (List.append_cancel_left h2)

theorem advKey_ne {s1 s2 : String} (w : String) (h : s1.length ≠ s2.length) :
    ns "adv" (w ++ s1) ≠ ns "adv" (w ++ s2) := by
  intro hcon
  have h2 := congrArg String.length hcon
  simp only [ns, String.length_append] at h2
  omega

theorem countKey_ne_scoreKey (w : String) : countKey w ≠ scoreKey w := by
  intro hcon
  unfold countKey scoreKey ns at hcon
  have h1 := str_append_cancel hcon
  have h2 := str_append_cancel h1
  exact absurd h2 (by decide)

/-- C4: the live advice keys of a region are modified only by the two
guarded renames of full_scan_advice: every other store operation of the
job leaves them untouched, the rename is a no-op when its temporary
source key is absent, a scan that accumulates zero candidates leaves the
previously published score and data values unchanged, and interrupting
the run at any point before the first rename (any prefix of the
operation sequence up to the populate steps) leaves them unchanged as
well. -/
theorem c4_atomic_publish (w : String) (hasC : Bool)
    (zm : List (String × ℚ)) (mp : List (String × String)) (ts cnt : String)
    (st0 : Store) :
    (∀ op ∈ fullScanOps w hasC zm mp ts cnt,
      (∀ src dst, op ≠ StoreOp.renameIfExists src dst) →
      ∀ st : Store, execOp st op (scoreKey w) = st (scoreKey w) ∧
        execOp st op (dataKey w) = st (dataKey w)) ∧
    (∀ (st : Store) (src dst : String), st src = none →
      execOp st (StoreOp.renameIfExists src dst) = st) ∧
    (hasC = false →
      execOps st0 (fullScanOps w hasC zm mp ts cnt) (scoreKey w) =
        st0 (scoreKey w) ∧
      execOps st0 (fullScanOps w hasC zm mp ts cnt) (dataKey w) =
        st0 (dataKey w)) ∧
    (∀ n ≤ preRenameCount hasC,
      execOps st0 ((fullScanOps w hasC zm mp ts cnt).take n) (scoreKey w) =
        st0 (scoreKey w) ∧
      execOps st0 ((fullScanOps w hasC zm mp ts cnt).take n) (dataKey w) =
        st0 (dataKey w)) := by
  have hne1 : scoreKey w ≠ scoreTmpKey w := advKey_ne w (by decide)
  have hne2 : scoreKey w ≠ dataTmpKey w := advKey_ne w (by decide)
  have hne3 : dataKey w ≠ scoreTmpKey w := advKey_ne w (by decide)
  have hne4 : dataKey w ≠ dataTmpKey w := advKey_ne w (by decide)
  have hne5 : scoreKey w ≠ tsKey w := advKey_ne w (by decide)
  have hne6 : dataKey w ≠ tsKey w := advKey_ne w (by decide)
  have hne7 : scoreKey w ≠ countKey w := fun hcon =>
    countKey_ne_scoreKey w hcon.symm
  have hne8 : dataKey w ≠ countKey w := advKey_ne w (by decide)
  refine ⟨?_, ?_, ?_, ?_⟩
  · intro op hop hnr st
    by_cases hc : hasC = true
    · rw [hc] at hop
      simp only [fullScanOps, if_true, List.cons_append, List.nil_append] at hop
      fin_cases hop <;>
        first
        | exact absurd rfl (hnr _ _)
        | exact ⟨by simp [execOp, hne1, hne2, hne5, hne7],
            by simp [execOp, hne3, hne4, hne6, hne8]⟩
    · simp only [Bool.not_eq_true] at hc
      rw [hc] at hop
      simp only [fullScanOps, Bool.false_eq_true, if_false, List.cons_append,
        List.nil_append] at hop
      fin_cases hop <;>
        first
        | exact absurd rfl (hnr _ _)
        | exact ⟨by simp [execOp, hne1, hne2, hne5, hne7],
            by simp [execOp, hne3, hne4, hne6, hne8]⟩
  · intro st src dst h
    simp [execOp, h]
  · intro hc
    subst hc
    simp only [fullScanOps, Bool.false_eq_true, if_false, List.nil_append,
      execOps, List.foldl_cons, List.foldl_nil]
    constructor
    · simp [execOp, hne1, hne2, hne5, hne7]
    · simp [execOp, hne3, hne4, hne6, hne8]
  · intro n hn
    by_cases hc : hasC = true
    · subst hc
      simp only [preRenameCount, if_true] at hn
      interval_cases n <;>
        simp only [fullScanOps, if_true, List.cons_append, List.nil_append,
          List.take, execOps, List.foldl_cons, List.foldl_nil] <;>
        exact ⟨by simp [execOp, hne1, hne2], by simp [execOp, hne3, hne4]⟩
    · simp only [Bool.not_eq_true] at hc
      subst hc
      simp only [preRenameCount, Bool.false_eq_true, if_false] at hn
      interval_cases n <;>
        simp only [fullScanOps, Bool.false_eq_true, if_false, List.cons_append,
          List.nil_append, List.take, execOps, List.foldl_cons, List.foldl_nil] <;>
        exact ⟨by simp [execOp, hne1, hne2], by simp [execOp, hne3, hne4]⟩

theorem c4_atomic_publish_witness :
    (false = false) ∧
    execOps storeC4 (fullScanOps "W" false [] [] "t" "c") (scoreKey "W") =
      storeC4 (scoreKey "W") ∧
    execOps storeC4 (fullScanOps "W" false [] [] "t" "c") (dataKey "W") =
      storeC4 (dataKey "W") ∧
    execOps storeC4 ((fullScanOps "W" false [] [] "t" "c").take 2) (scoreKey "W") =
      storeC4 (scoreKey "W") ∧
    storeC4 (scoreKey "W") = some (RVal.str "oldscore") ∧
    storeC4 (dataKey "W") = some (RVal.str "olddata") := by
  have h := c4_atomic_publish "W" false [] [] "t" "c" storeC4
  refine ⟨rfl, (h.2.2.1 rfl).1, (h.2.2.1 rfl).2, (h.2.2.2 2 (by decide)).1,
    by with_unfolding_all decide, by with_unfolding_all decide⟩

end Broker
